import Mathlib

/-
Verification of the unused-symbol checker in `unused/unused.go`
(package `honnef.co/go/unused`).

The Go front end (`go/types`, `go/ast`, `go/build`, `golang.org/x/tools/go/loader`)
is the external Program Model Provider: it is modelled as data supplied to the
analyzer (a `Model` mapping object ids and type ids to the information the
checker queries, plus per-package definition/usage tables and the composite
literals found while walking the syntax trees).  Everything the checker itself
computes — the definition table, the interface contract list, the composite
literal special case, and the filtering rules — is translated directly from
`unused.go`.
-/

namespace Unused

/-- Boundary model of Go strings.HasPrefix over the character sequence. -/
def hasPrefixS (s pre : String) : Bool := pre.data.isPrefixOf s.data

/-- Boundary model of Go strings.HasSuffix over the character sequence. -/
def hasSuffixS (s suf : String) : Bool := suf.data.isSuffixOf s.data

/-- Identity of a `types.Object` (pointer identity in Go). -/
abbrev ObjId := Nat

/-- Identity of a `types.Type` (pointer identity in Go). -/
abbrev TypeId := Nat

/-- The name plus an abstract signature code of one method, as the front end
reports it.  Two methods agree in Go exactly when name and signature agree;
the signature is abstracted to a code because signature structure is computed
entirely by the external `go/types`. -/
structure MethodSig where
  name : String
  sig : Nat
deriving DecidableEq

/-- Dynamic class of a `types.Type`, as discriminated by the checker via type
assertions: `*types.Named`, `*types.Interface`, `*types.Struct`,
`*types.Signature`, and anything else. -/
inductive TypeKind where
  | namedK | ifaceK | structK | sigK | basicK
deriving DecidableEq

/-- Front-end information about one type id.  `underlying` is the result of
`Underlying()` for a named type (and is never itself named, per the go/types
invariant); `ifaceMethods` is the method list of an interface shape; `fields`
is the field-object list of a struct shape; `recv` is the receiver type of a
signature (`none` for plain functions); `methodSet` is the full method set of
the type as `go/types` computes it, used by `types.Implements`. -/
structure TypeInfo where
  kind : TypeKind
  underlying : TypeId
  ifaceMethods : List MethodSig
  fields : List ObjId
  recv : Option TypeId
  methodSet : List MethodSig
deriving DecidableEq

/-- Dynamic class of a `types.Object`: `*types.Const`, `*types.Var`,
`*types.TypeName`, `*types.Func`, `*types.PkgName`. -/
inductive ObjKind where
  | constObj | varObj | typeNameObj | funcObj | pkgNameObj
deriving DecidableEq

/-- Front-end information about one object id: its dynamic class, `Name()`,
`Pkg().Name()` (`none` when `Pkg()` is nil, i.e. a universe symbol),
`Type()`, `Var.IsField()`, whether `Parent() == Pkg().Scope()`, `Exported()`,
and the file name of `Pos()`. -/
structure ObjInfo where
  kind : ObjKind
  name : String
  pkgName : Option String
  typeId : TypeId
  fieldFlag : Bool
  pkgScope : Bool
  exported : Bool
  fileName : String
deriving DecidableEq

/-- The type-resolved program model supplied by the external front end. -/
structure Model where
  typeInfo : TypeId → TypeInfo
  objInfo : ObjId → ObjInfo

/-- Result of `t.Underlying()`: one step through a named type, identity on
every other shape, exactly as go/types stores it. -/
def underlyingOf (m : Model) (t : TypeId) : TypeId :=
  match (m.typeInfo t).kind with
  | TypeKind.namedK => (m.typeInfo t).underlying
  | _ => t

/-- CheckMode bitmask from the source (`1 << iota`). -/
abbrev CheckMode := Nat

def CheckConstants : CheckMode := 1
def CheckFields : CheckMode := 2
def CheckFunctions : CheckMode := 4
def CheckTypes : CheckMode := 8
def CheckVariables : CheckMode := 16

/-- The `Checker` configuration.  `Fset` only carries position data for the
caller and is omitted; `Verbose` only toggles front-end diagnostics. -/
structure Checker where
  Mode : CheckMode
  Verbose : Bool

def Checker.checkConstants (c : Checker) : Bool := decide (c.Mode &&& CheckConstants > 0)
def Checker.checkFields (c : Checker) : Bool := decide (c.Mode &&& CheckFields > 0)
def Checker.checkFunctions (c : Checker) : Bool := decide (c.Mode &&& CheckFunctions > 0)
def Checker.checkTypes (c : Checker) : Bool := decide (c.Mode &&& CheckTypes > 0)
def Checker.checkVariables (c : Checker) : Bool := decide (c.Mode &&& CheckVariables > 0)

/-- `isFunction(obj)`: the object is a `*types.Func`. -/
def isFunction (m : Model) (o : ObjId) : Bool := decide ((m.objInfo o).kind = ObjKind.funcObj)

/-- `isVariable(obj)`: the object is a `*types.Var` (struct fields included). -/
def isVariable (m : Model) (o : ObjId) : Bool := decide ((m.objInfo o).kind = ObjKind.varObj)

/-- `isConstant(obj)`: the object is a `*types.Const`. -/
def isConstant (m : Model) (o : ObjId) : Bool := decide ((m.objInfo o).kind = ObjKind.constObj)

/-- `isType(obj)`: the object is a `*types.TypeName`. -/
def isType (m : Model) (o : ObjId) : Bool := decide ((m.objInfo o).kind = ObjKind.typeNameObj)

/-- `isField(obj)`: the object is a `*types.Var` with `IsField()`. -/
def isField (m : Model) (o : ObjId) : Bool :=
  decide ((m.objInfo o).kind = ObjKind.varObj) && (m.objInfo o).fieldFlag

/-- `isPkgScope(obj)`: `obj.Parent() == obj.Pkg().Scope()`. -/
def isPkgScope (m : Model) (o : ObjId) : Bool := (m.objInfo o).pkgScope

/-- `isMethod(obj)`: a `*types.Func` whose signature has a receiver. -/
def isMethod (m : Model) (o : ObjId) : Bool :=
  isFunction m o && ((m.typeInfo (m.objInfo o).typeId).recv).isSome

/-- `isMain(obj)`: the early-return chain of the source written as one
conjunction — package named main, name main, package scope, a function,
not a method. -/
def isMain (m : Model) (o : ObjId) : Bool :=
  decide ((m.objInfo o).pkgName = some "main") &&
  decide ((m.objInfo o).name = "main") &&
  isPkgScope m o &&
  isFunction m o &&
  !(isMethod m o)

/-- Boundary model of `types.Implements(T, iface)`: the method set of `T`
(computed by the external go/types and stored in the Model) contains every
method of the interface, same name and signature. -/
def typesImplements (m : Model) (t iface : TypeId) : Bool :=
  (m.typeInfo iface).ifaceMethods.all (fun ms => decide (ms ∈ (m.typeInfo t).methodSet))

/-- `implements(obj, interfaces)` from the source: take the receiver type of
the method and look for a collected interface it implements that declares a
method of the same name.  The source only calls this on methods, where the
receiver is present; the impossible receiver-free case returns false. -/
def implements (m : Model) (o : ObjId) (ifaces : List TypeId) : Bool :=
  match (m.typeInfo (m.objInfo o).typeId).recv with
  | none => false
  | some rt =>
    ifaces.any (fun iface =>
      typesImplements m rt iface &&
      (m.typeInfo iface).ifaceMethods.any (fun meth => decide (meth.name = (m.objInfo o).name)))

/-- `Checker.checkFlags(obj)` translated clause by clause. -/
def Checker.checkFlags (c : Checker) (m : Model) (o : ObjId) : Bool :=
  if isFunction m o && !c.checkFunctions then false
  else if isVariable m o && !c.checkVariables then false
  else if isConstant m o && !c.checkConstants then false
  else if isType m o && !c.checkTypes then false
  else if isField m o && !c.checkFields then false
  else true

/-- The `defs` map of the source, `map[types.Object]bool`, as an association
list with at most one entry per key. -/
abbrev DefsTable := List (ObjId × Bool)

/-- Go map assignment `defs[obj] = b`: overwrite the entry if the key is
present, insert it otherwise. -/
def setDef : DefsTable → ObjId → Bool → DefsTable
  | [], o, b => [(o, b)]
  | (k, v) :: t, o, b => if k = o then (k, b) :: t else (k, v) :: setDef t o b

/-- Go map read `defs[obj]`, distinguishing absence. -/
def lookupDef : DefsTable → ObjId → Option Bool
  | [], _ => none
  | (k, v) :: t, o => if k = o then some v else lookupDef t o

/-- One `*ast.CompositeLit` as the visitor inspects it:
whether `node.Type` is written as an `*ast.StructType`, the object the
identifier `node.Type` resolves to when it is an `*ast.Ident` (`none` for any
other expression form), `pkg.TypeOf(node)`, and for each element of
`node.Elts` whether it is an `*ast.KeyValueExpr`. -/
structure CompLit where
  typeIsStructLit : Bool
  typeIdent : Option ObjId
  typeOfNode : TypeId
  elts : List Bool
deriving DecidableEq

/-- The struct type the literal instantiates, following the source: a literal
written with a struct shape uses `pkg.TypeOf(node)`; a literal written with an
identifier uses the identifier object type, required to be named; then the
underlying type must be a struct. -/
def structTypeOfLit (m : Model) (cl : CompLit) : Option TypeId :=
  let objT : Option TypeId :=
    if cl.typeIsStructLit then
      some cl.typeOfNode
    else
      match cl.typeIdent with
      | none => none
      | some ident =>
        let t := (m.objInfo ident).typeId
        if (m.typeInfo t).kind = TypeKind.namedK then some t else none
  match objT with
  | none => none
  | some t =>
    let u := underlyingOf m t
    if (m.typeInfo u).kind = TypeKind.structK then some u else none

/-- Processing of one composite literal by the visitor: when any element is
positional (not a KeyValueExpr) every field of the struct type is marked
used. -/
def processLit (m : Model) (defs : DefsTable) (cl : CompLit) : DefsTable :=
  match structTypeOfLit m cl with
  | none => defs
  | some st =>
    let basic := cl.elts.any (fun isKV => !isKV)
    if basic then (m.typeInfo st).fields.foldl (fun d f => setDef d f true) defs
    else defs

/-- One initial package of the loaded program: the object list of `pkg.Defs`
(nil entries included), the object list of `pkg.Uses`, and per file the
composite literals in the order `ast.Walk` reaches them (nested literals
included). -/
structure PackageModel where
  defs : List (Option ObjId)
  uses : List ObjId
  files : List (List CompLit)
deriving DecidableEq

/-- The mutable state of the construction phase: the definition table and the
collected interface contracts. -/
structure AnalysisState where
  defs : DefsTable
  interfaces : List TypeId

/-- Processing of one entry of `pkg.Defs`, in source order: skip nil; collect
a variable whose type is (directly) an interface; collect a type name whose
underlying type is an interface; skip variables that are neither package
scope nor fields; skip package names; insert everything else as unused. -/
def collectDef (m : Model) (st : AnalysisState) (entry : Option ObjId) : AnalysisState :=
  match entry with
  | none => st
  | some o =>
    let info := m.objInfo o
    let ifs1 :=
      if info.kind = ObjKind.varObj ∧ (m.typeInfo info.typeId).kind = TypeKind.ifaceK
      then st.interfaces ++ [info.typeId] else st.interfaces
    let ifs2 :=
      if info.kind = ObjKind.typeNameObj ∧
         (m.typeInfo (underlyingOf m info.typeId)).kind = TypeKind.ifaceK
      then ifs1 ++ [underlyingOf m info.typeId] else ifs1
    let defs1 :=
      if isVariable m o && !(isPkgScope m o) && !(isField m o) then st.defs
      else if info.kind = ObjKind.pkgNameObj then st.defs
      else setDef st.defs o false
    ⟨defs1, ifs2⟩

/-- Processing of one initial package: the `pkg.Defs` loop, then the
`pkg.Uses` loop, then the composite-literal walk over every file. -/
def processPackage (m : Model) (st : AnalysisState) (pkg : PackageModel) : AnalysisState :=
  let st1 := pkg.defs.foldl (collectDef m) st
  let defs2 := pkg.uses.foldl (fun d o => setDef d o true) st1.defs
  let defs3 := pkg.files.foldl (fun d lits => lits.foldl (processLit m) d) defs2
  ⟨defs3, st1.interfaces⟩

/-- A successfully loaded program: the shared type-resolved model and the
initial packages in the order `lprog.InitialPackages()` yields them. -/
structure LoadedProgram where
  model : Model
  pkgs : List PackageModel

/-- The whole construction phase of `Checker.Check`, starting from the empty
table and empty contract list. -/
def buildState (prog : LoadedProgram) : AnalysisState :=
  prog.pkgs.foldl (processPackage prog.model) ⟨[], []⟩

/-- The filtering phase for one table entry, one conjunct per `continue` of
the source in order: nil package, kind mask, used flag, discard name, export
amnesty, program entry point, initializer, interface satisfaction. -/
def keepObj (c : Checker) (m : Model) (ifaces : List TypeId) (o : ObjId) (used : Bool) : Bool :=
  (m.objInfo o).pkgName.isSome &&
  c.checkFlags m o &&
  !used &&
  !(decide ((m.objInfo o).name = "_")) &&
  !((m.objInfo o).exported &&
    (isPkgScope m o || isMethod m o || isField m o) &&
    (!(hasSuffixS (m.objInfo o).fileName "_test.go") ||
     hasPrefixS (m.objInfo o).name "Test" ||
     hasPrefixS (m.objInfo o).name "Benchmark" ||
     hasPrefixS (m.objInfo o).name "Example")) &&
  !(isMain m o) &&
  !(isFunction m o && !(isMethod m o) && decide ((m.objInfo o).name = "init")) &&
  !(isMethod m o && implements m o ifaces)

/-- The mode-independent part of `keepObj`: every filtering conjunct except
the kind mask, in source order. -/
def keepRest (m : Model) (ifaces : List TypeId) (o : ObjId) (used : Bool) : Bool :=
  (m.objInfo o).pkgName.isSome &&
  !used &&
  !(decide ((m.objInfo o).name = "_")) &&
  !((m.objInfo o).exported &&
    (isPkgScope m o || isMethod m o || isField m o) &&
    (!(hasSuffixS (m.objInfo o).fileName "_test.go") ||
     hasPrefixS (m.objInfo o).name "Test" ||
     hasPrefixS (m.objInfo o).name "Benchmark" ||
     hasPrefixS (m.objInfo o).name "Example")) &&
  !(isMain m o) &&
  !(isFunction m o && !(isMethod m o) && decide ((m.objInfo o).name = "init")) &&
  !(isMethod m o && implements m o ifaces)

/-- The result list of one `Check` run over an already loaded program: the
construction phase followed by the filtering loop over the table. -/
def checkResult (c : Checker) (prog : LoadedProgram) : List ObjId :=
  (buildState prog).defs.filterMap (fun e =>
    if keepObj c prog.model (buildState prog).interfaces e.1 e.2 then some e.1 else none)

/-- `resolveRelative` with the front-end resolution step (`build.Import`
relative to the working directory) as an oracle.  The Go function overwrites
`importPaths[i]` as it goes and stops at the first failure; the returned list
is the content of the caller slice after the call, the Bool records whether
an error was returned. -/
def resolveRelative (resolve : String → Option String) : List String → List String × Bool
  | [] => ([], false)
  | p :: rest =>
    match resolve p with
    | none => (p :: rest, true)
    | some q =>
      let r := resolveRelative resolve rest
      (q :: r.1, r.2)

/-- `Checker.Check` at the call boundary: resolve the caller paths in place,
load the program through the front end (`loader.Config.Load` as an oracle),
then run the analysis.  The first component is the caller slice after the
call; the second is `none` exactly when an error is returned. -/
def Checker.Check (c : Checker) (resolve : String → Option String)
    (load : List String → Option LoadedProgram) (paths : List String) :
    List String × Option (List ObjId) :=
  match resolveRelative resolve paths with
  | (paths2, true) => (paths2, none)
  | (paths2, false) =>
    match load paths2 with
    | none => (paths2, none)
    | some prog => (paths2, some (checkResult c prog))

/-- Whether one composite literal marks the given field used: the literal
resolves to a struct type, has a positional element, and the field belongs to
that struct.  This is the exact condition under which `processLit` writes the
field. -/
def litMarksField (m : Model) (cl : CompLit) (f : ObjId) : Bool :=
  match structTypeOfLit m cl with
  | none => false
  | some st => (cl.elts.any (fun isKV => !isKV)) && decide (f ∈ (m.typeInfo st).fields)

/-- Well-formedness of the association list modelling the Go map: keys occur
at most once. -/
def KeysOk (t : DefsTable) : Prop := (t.map Prod.fst).Nodup

/-
Concrete program models used to evaluate the checker on closed inputs.
Type ids: 1 a struct with fields 1 and 2; 2 the named type S over it;
3 an interface declaring Write; 4 the named type I over it; 5 a method
signature with receiver type 6; 6 a named type whose method set holds Write;
7 a plain function signature.
-/
def mdlTypes : Nat → TypeInfo
  | 1 => ⟨TypeKind.structK, 1, [], [1, 2], none, []⟩
  | 2 => ⟨TypeKind.namedK, 1, [], [], none, []⟩
  | 3 => ⟨TypeKind.ifaceK, 3, [⟨"Write", 7⟩], [], none, []⟩
  | 4 => ⟨TypeKind.namedK, 3, [], [], none, []⟩
  | 5 => ⟨TypeKind.sigK, 5, [], [], some 6, []⟩
  | 6 => ⟨TypeKind.namedK, 0, [], [], none, [⟨"Write", 7⟩]⟩
  | 7 => ⟨TypeKind.sigK, 7, [], [], none, []⟩
  | _ => ⟨TypeKind.basicK, 0, [], [], none, []⟩

/-
Object ids: 0 type name S; 1 and 2 its unexported fields a and b; 3 type
name I; 4 a variable of the named interface type I; 5 a local variable;
6 an exported method Write with receiver type 6; 7 function main of package
main; 8 function init; 9 a universe constant (nil package); 10 an exported
function in a test file without a test-entry name; 11 an exported package
scope function; 12 a variable whose written type is the bare interface
shape; 13 an unexported package scope function.
-/
def mdlObjs : Nat → ObjInfo
  | 0 => ⟨ObjKind.typeNameObj, "S", some "p", 2, false, true, true, "a.go"⟩
  | 1 => ⟨ObjKind.varObj, "a", some "p", 0, true, false, false, "a.go"⟩
  | 2 => ⟨ObjKind.varObj, "b", some "p", 0, true, false, false, "a.go"⟩
  | 3 => ⟨ObjKind.typeNameObj, "I", some "p", 4, false, true, true, "a.go"⟩
  | 4 => ⟨ObjKind.varObj, "w", some "p", 4, false, true, false, "a.go"⟩
  | 5 => ⟨ObjKind.varObj, "x", some "p", 0, false, false, false, "a.go"⟩
  | 6 => ⟨ObjKind.funcObj, "Write", some "p", 5, false, false, true, "a.go"⟩
  | 7 => ⟨ObjKind.funcObj, "main", some "main", 7, false, true, false, "m.go"⟩
  | 8 => ⟨ObjKind.funcObj, "init", some "p", 7, false, true, false, "a.go"⟩
  | 9 => ⟨ObjKind.constObj, "iota", none, 0, false, false, false, ""⟩
  | 10 => ⟨ObjKind.funcObj, "Helper", some "p", 7, false, true, true, "a_test.go"⟩
  | 11 => ⟨ObjKind.funcObj, "PubAPI", some "p", 7, false, true, true, "a.go"⟩
  | 12 => ⟨ObjKind.varObj, "v", some "p", 3, false, true, false, "a.go"⟩
  | 13 => ⟨ObjKind.funcObj, "helper", some "p", 7, false, true, false, "a.go"⟩
  | _ => ⟨ObjKind.constObj, "zero", some "p", 0, false, false, false, "a.go"⟩

def mdl : Model := ⟨mdlTypes, mdlObjs⟩

/-- A keyed literal `S{a: 1}`: the type is the ident resolving to object 0,
the single element is a KeyValueExpr. -/
def litKeyed : CompLit := ⟨false, some 0, 0, [true]⟩

/-- A positional literal `S{1, 2}`: two non-KeyValueExpr elements. -/
def litPos : CompLit := ⟨false, some 0, 0, [false, false]⟩

/-- Package declaring S with its two fields, using S and field a through the
keyed literal. -/
def pkgKeyed : PackageModel := ⟨[some 0, some 1, some 2], [0, 1], [[litKeyed]]⟩

/-- Package declaring S with its two fields and building it positionally. -/
def pkgPos : PackageModel := ⟨[some 0, some 1, some 2], [0], [[litPos]]⟩

def progKeyed : LoadedProgram := ⟨mdl, [pkgKeyed]⟩
def progPos : LoadedProgram := ⟨mdl, [pkgPos]⟩

/-- Package declaring only the never-referenced field object 2. -/
def pkgFieldOnly : PackageModel := ⟨[some 2], [], []⟩
def progFieldOnly : LoadedProgram := ⟨mdl, [pkgFieldOnly]⟩

/-- First package of the flag-reset scenario: it only uses object 13. -/
def pkgUserFirst : PackageModel := ⟨[], [13], []⟩
/-- Second package of the flag-reset scenario: it defines object 13. -/
def pkgDefSecond : PackageModel := ⟨[some 13], [], []⟩
def progReset : LoadedProgram := ⟨mdl, [pkgUserFirst, pkgDefSecond]⟩

/-- Package declaring the interface type I and the method Write. -/
def pkgIface : PackageModel := ⟨[some 3, some 6], [], []⟩
def progIface : LoadedProgram := ⟨mdl, [pkgIface]⟩

/-- Package declaring only the variable of named interface type. -/
def pkgNamedIfaceVar : PackageModel := ⟨[some 4], [], []⟩
def progNamedIfaceVar : LoadedProgram := ⟨mdl, [pkgNamedIfaceVar]⟩

/-- Package declaring only the interface type name I. -/
def pkgIfaceType : PackageModel := ⟨[some 3], [], []⟩
def progIfaceType : LoadedProgram := ⟨mdl, [pkgIfaceType]⟩

/-- Package declaring only the variable written with a bare interface shape. -/
def pkgIfaceVar : PackageModel := ⟨[some 12], [], []⟩
def progIfaceVar : LoadedProgram := ⟨mdl, [pkgIfaceVar]⟩

/-- Package whose Defs hold only a local variable that is also used. -/
def pkgLocalUse : PackageModel := ⟨[some 5], [5], []⟩
def progLocalUse : LoadedProgram := ⟨mdl, [pkgLocalUse]⟩

/-- Package whose Defs hold only the local variable, with no uses. -/
def pkgLocalOnly : PackageModel := ⟨[some 5], [], []⟩
def progLocalOnly : LoadedProgram := ⟨mdl, [pkgLocalOnly]⟩

/-- Package declaring the exported test-file function without a test-entry
name. -/
def pkgTestHelper : PackageModel := ⟨[some 10], [], []⟩
def progTestHelper : LoadedProgram := ⟨mdl, [pkgTestHelper]⟩

/-- Package declaring the exported non-test-file function. -/
def pkgExported : PackageModel := ⟨[some 11], [], []⟩
def progExported : LoadedProgram := ⟨mdl, [pkgExported]⟩

/-- Package declaring main and init. -/
def pkgEntry : PackageModel := ⟨[some 7, some 8], [], []⟩
def progEntry : LoadedProgram := ⟨mdl, [pkgEntry]⟩

/-- Package declaring the universe constant. -/
def pkgUniverse : PackageModel := ⟨[some 9], [], []⟩
def progUniverse : LoadedProgram := ⟨mdl, [pkgUniverse]⟩

/-- Resolution oracle for the call-boundary witness. -/
def exResolve (s : String) : Option String := some ("go/" ++ s)

/-- Loader oracle for the call-boundary witness. -/
def exLoad : List String → Option LoadedProgram := fun _ => none

/-- Preservation of a predicate along a left fold. -/
theorem foldl_pres {σ α : Type _} (P : σ → Prop) (g : σ → α → σ) (l : List α)
    (h : ∀ s a, a ∈ l → P s → P (g s a)) :
    ∀ s, P s → P (l.foldl g s) := by
  induction l with
  | nil => intro s hs; exact hs
  | cons a t ih =>
    intro s hs
    exact ih (fun s' a' ha' hp => h s' a' (List.mem_cons_of_mem _ ha') hp) (g s a)
      (h s a (List.mem_cons_self a t) hs)

/-- Establishment of a predicate along a left fold: some element of the list
establishes it unconditionally and every element preserves it. -/
theorem foldl_estab {σ α : Type _} (P : σ → Prop) (g : σ → α → σ) :
    ∀ (l : List α) (a0 : α), a0 ∈ l → (∀ s, P (g s a0)) →
      (∀ s a, a ∈ l → P s → P (g s a)) → ∀ s, P (l.foldl g s)
  | [], a0, ha, _, _, _ => absurd ha (List.not_mem_nil a0)
  | b :: t, a0, ha, hstep, hpres, s => by
    rcases List.mem_cons.mp ha with h0 | h0
    · subst h0
      exact foldl_pres P g t (fun s' a' ha' => hpres s' a' (List.mem_cons_of_mem _ ha')) _
        (hstep s)
    · exact foldl_estab P g t a0 h0 hstep
        (fun s' a' ha' => hpres s' a' (List.mem_cons_of_mem _ ha')) (g s b)

/-- Reading the key just written returns the written value. -/
theorem lookupDef_setDef_self (t : DefsTable) (o : ObjId) (b : Bool) :
    lookupDef (setDef t o b) o = some b := by
  induction t with
  | nil => simp [setDef, lookupDef]
  | cons e t ih =>
    obtain ⟨k, v⟩ := e
    by_cases h : k = o
    · simp [setDef, h, lookupDef]
    · simp [setDef, h, lookupDef, ih]

/-- Writing one key leaves every other key unchanged. -/
theorem lookupDef_setDef_ne (t : DefsTable) {o o' : ObjId} (b : Bool) (h : o' ≠ o) :
    lookupDef (setDef t o b) o' = lookupDef t o' := by
  induction t with
  | nil => simp [setDef, lookupDef, Ne.symm h]
  | cons e t ih =>
    obtain ⟨k, v⟩ := e
    by_cases hk : k = o
    · subst hk
      simp [setDef, lookupDef, Ne.symm h]
    · simp [setDef, hk, lookupDef, ih]

/-- A successful read exhibits a table entry. -/
theorem mem_of_lookupDef : ∀ (t : DefsTable) (o : ObjId) (b : Bool),
    lookupDef t o = some b → (o, b) ∈ t
  | [], o, b, h => by simp [lookupDef] at h
  | (k, v) :: t, o, b, h => by
    by_cases hk : k = o
    · subst hk
      simp [lookupDef] at h
      subst h
      exact List.mem_cons_self _ _
    · simp [lookupDef, hk] at h
      exact List.mem_cons_of_mem _ (mem_of_lookupDef t o b h)

/-- Key presence agrees with the read operation. -/
theorem mem_keys_iff_lookup (t : DefsTable) (x : ObjId) :
    x ∈ t.map Prod.fst ↔ (lookupDef t x).isSome = true := by
  induction t with
  | nil => simp [lookupDef]
  | cons e t ih =>
    obtain ⟨k, v⟩ := e
    by_cases hk : k = x
    · subst hk; simp [lookupDef]
    · simp [lookupDef, hk, ih, Ne.symm hk]

/-- Go map assignment keeps keys unique. -/
theorem keysOk_setDef (t : DefsTable) (o : ObjId) (b : Bool) (h : KeysOk t) :
    KeysOk (setDef t o b) := by
  induction t with
  | nil => simp [setDef, KeysOk]
  | cons e t ih =>
    obtain ⟨k, v⟩ := e
    obtain ⟨h1, h2⟩ : k ∉ t.map Prod.fst ∧ KeysOk t := by
      have h' := h
      simp only [KeysOk, List.map_cons, List.nodup_cons] at h'
      exact h'
    by_cases hk : k = o
    · subst hk
      rw [show setDef ((k, v) :: t) k b = (k, b) :: t from by simp [setDef]]
      simp only [KeysOk, List.map_cons, List.nodup_cons]
      exact ⟨h1, h2⟩
    · have hmem : k ∉ (setDef t o b).map Prod.fst := by
        rw [mem_keys_iff_lookup, lookupDef_setDef_ne _ _ hk, ← mem_keys_iff_lookup]
        exact h1
      rw [show setDef ((k, v) :: t) o b = (k, v) :: setDef t o b from by simp [setDef, hk]]
      simp only [KeysOk, List.map_cons, List.nodup_cons]
      exact ⟨hmem, ih h2⟩

/-- With unique keys a table entry determines the read result. -/
theorem lookupDef_of_mem : ∀ (t : DefsTable) (o : ObjId) (b : Bool),
    KeysOk t → (o, b) ∈ t → lookupDef t o = some b
  | [], o, b, _, hm => absurd hm (List.not_mem_nil _)
  | (k, v) :: t, o, b, hok, hm => by
    obtain ⟨h1, h2⟩ : k ∉ t.map Prod.fst ∧ KeysOk t := by
      have h' := hok
      simp only [KeysOk, List.map_cons, List.nodup_cons] at h'
      exact h'
    rcases List.mem_cons.mp hm with h0 | h0
    · obtain ⟨rfl, rfl⟩ : o = k ∧ b = v := by
        constructor <;> [exact congrArg Prod.fst h0; exact congrArg Prod.snd h0]
      simp [lookupDef]
    · have hne : k ≠ o := by
        intro hko
        subst hko
        exact h1 (List.mem_map_of_mem Prod.fst h0)
      simp [lookupDef, hne]
      exact lookupDef_of_mem t o b h2 h0

/-- Writing never removes a key. -/
theorem isSome_lookup_setDef (t : DefsTable) (o o' : ObjId) (b : Bool)
    (h : (lookupDef t o').isSome = true) :
    (lookupDef (setDef t o b) o').isSome = true := by
  by_cases ho : o' = o
  · subst ho; rw [lookupDef_setDef_self]; rfl
  · rw [lookupDef_setDef_ne _ _ ho]; exact h

/-- Folding true-valued writes preserves a true reading. -/
theorem lookup_setTrue_fold_pres (l : List ObjId) (d : DefsTable) (f : ObjId)
    (h : lookupDef d f = some true) :
    lookupDef (l.foldl (fun d x => setDef d x true) d) f = some true := by
  refine foldl_pres (fun d => lookupDef d f = some true) _ l ?_ d h
  intro s a _ hp
  by_cases ha : f = a
  · subst ha; exact lookupDef_setDef_self _ _ _
  · rw [lookupDef_setDef_ne _ _ ha]; exact hp

/-- Folding true-valued writes over a list containing the key yields true. -/
theorem lookup_setTrue_fold_mem (l : List ObjId) (d : DefsTable) (f : ObjId) (hf : f ∈ l) :
    lookupDef (l.foldl (fun d x => setDef d x true) d) f = some true := by
  refine foldl_estab (fun d => lookupDef d f = some true) _ l f hf ?_ ?_ d
  · intro s; exact lookupDef_setDef_self _ _ _
  · intro s a _ hp
    by_cases ha : f = a
    · subst ha; exact lookupDef_setDef_self _ _ _
    · rw [lookupDef_setDef_ne _ _ ha]; exact hp

/-- Folding true-valued writes over a list avoiding the key changes nothing
at that key. -/
theorem lookup_setTrue_fold_not_mem : ∀ (l : List ObjId) (d : DefsTable) (f : ObjId),
    f ∉ l →
    lookupDef (l.foldl (fun d x => setDef d x true) d) f = lookupDef d f
  | [], _, _, _ => rfl
  | a :: t, d, f, hf => by
    have hne : f ≠ a := fun h => hf (h ▸ List.mem_cons_self a t)
    rw [List.foldl_cons,
        lookup_setTrue_fold_not_mem t (setDef d a true) f
          (fun h => hf (List.mem_cons_of_mem _ h)),
        lookupDef_setDef_ne _ _ hne]

/-- Processing a composite literal preserves a true reading: the visitor only
ever writes true. -/
theorem processLit_pres_true (m : Model) (cl : CompLit) (d : DefsTable) (f : ObjId)
    (h : lookupDef d f = some true) :
    lookupDef (processLit m d cl) f = some true := by
  cases hst : structTypeOfLit m cl with
  | none => simpa [processLit, hst] using h
  | some st =>
    cases hb : cl.elts.any (fun isKV => !isKV) with
    | false => simpa [processLit, hst, hb] using h
    | true =>
      simp only [processLit, hst, hb, if_true]
      exact lookup_setTrue_fold_pres _ _ _ h

/-- A literal with a positional element writes true at every field of its
struct type. -/
theorem processLit_marks (m : Model) (cl : CompLit) (d : DefsTable) (f : ObjId)
    (st : TypeId) (hst : structTypeOfLit m cl = some st)
    (hb : cl.elts.any (fun isKV => !isKV) = true)
    (hf : f ∈ (m.typeInfo st).fields) :
    lookupDef (processLit m d cl) f = some true := by
  simp only [processLit, hst, hb, if_true]
  exact lookup_setTrue_fold_mem _ _ _ hf

/-- A literal that does not mark the field leaves its reading unchanged. -/
theorem processLit_not_marks (m : Model) (cl : CompLit) (d : DefsTable) (f : ObjId)
    (h : litMarksField m cl f = false) :
    lookupDef (processLit m d cl) f = lookupDef d f := by
  cases hst : structTypeOfLit m cl with
  | none => simp [processLit, hst]
  | some st =>
    cases hb : cl.elts.any (fun isKV => !isKV) with
    | false => simp [processLit, hst, hb]
    | true =>
      have hf : f ∉ (m.typeInfo st).fields := by
        simp only [litMarksField, hst, hb, Bool.true_and, decide_eq_false_iff_not] at h
        exact h
      simp only [processLit, hst, hb, if_true]
      exact lookup_setTrue_fold_not_mem _ _ _ hf

/-- Processing a literal keeps table keys unique. -/
theorem keysOk_processLit (m : Model) (cl : CompLit) (d : DefsTable) (h : KeysOk d) :
    KeysOk (processLit m d cl) := by
  cases hst : structTypeOfLit m cl with
  | none => simpa [processLit, hst] using h
  | some st =>
    cases hb : cl.elts.any (fun isKV => !isKV) with
    | false => simpa [processLit, hst, hb] using h
    | true =>
      simp only [processLit, hst, hb, if_true]
      refine foldl_pres KeysOk (fun d f => setDef d f true) _ ?_ d h
      intro d' f _ hp
      exact keysOk_setDef _ _ _ hp

/-- The table produced by one Defs entry: unchanged, or one false-valued
write. -/
theorem collectDef_defs (m : Model) (st : AnalysisState) (e : Option ObjId) :
    (collectDef m st e).defs = st.defs ∨
      ∃ o, e = some o ∧ (collectDef m st e).defs = setDef st.defs o false := by
  cases e with
  | none => exact Or.inl rfl
  | some o =>
    by_cases h1 : (isVariable m o && !(isPkgScope m o) && !(isField m o)) = true
    · left; simp [collectDef, h1]
    · by_cases h2 : (m.objInfo o).kind = ObjKind.pkgNameObj
      · left; simp [collectDef, h1, h2]
      · right; exact ⟨o, rfl, by simp [collectDef, h1, h2]⟩

/-- Any predicate of the reading that holds at a false write and held before
the entry still holds after it. -/
theorem collectDef_lookup_pres (m : Model) (st : AnalysisState) (e : Option ObjId)
    (f : ObjId) (P : Option Bool → Prop) (hset : P (some false))
    (hp : P (lookupDef st.defs f)) :
    P (lookupDef (collectDef m st e).defs f) := by
  rcases collectDef_defs m st e with h | ⟨o, _, h⟩
  · rw [h]; exact hp
  · rw [h]
    by_cases ho : f = o
    · subst ho; rw [lookupDef_setDef_self]; exact hset
    · rw [lookupDef_setDef_ne _ _ ho]; exact hp

/-- A candidate definition (not a skipped local variable, not a package
name) is inserted as unused. -/
theorem collectDef_inserts (m : Model) (st : AnalysisState) (o : ObjId)
    (hskip : (isVariable m o && !(isPkgScope m o) && !(isField m o)) = false)
    (hpkg : (m.objInfo o).kind ≠ ObjKind.pkgNameObj) :
    lookupDef (collectDef m st (some o)).defs o = some false := by
  have h1 : ¬ ((isVariable m o && !(isPkgScope m o) && !(isField m o)) = true) := by
    simp [hskip]
  simp [collectDef, h1, hpkg, lookupDef_setDef_self]

/-- The construction phase keeps table keys unique. -/
theorem keysOk_buildState (prog : LoadedProgram) : KeysOk (buildState prog).defs := by
  refine foldl_pres (fun st => KeysOk st.defs) (processPackage prog.model) prog.pkgs
    ?_ ⟨[], []⟩ (by simp [KeysOk])
  intro st pkg _ hst
  have h1 : KeysOk ((pkg.defs.foldl (collectDef prog.model) st).defs) := by
    refine foldl_pres (fun st => KeysOk st.defs) (collectDef prog.model) pkg.defs ?_ st hst
    intro st' e _ hp
    rcases collectDef_defs prog.model st' e with h | ⟨o, _, h⟩
    · rw [h]; exact hp
    · rw [h]; exact keysOk_setDef _ _ _ hp
  have h2 : KeysOk (pkg.uses.foldl (fun d o => setDef d o true)
      ((pkg.defs.foldl (collectDef prog.model) st).defs)) := by
    refine foldl_pres KeysOk (fun d o => setDef d o true) pkg.uses ?_ _ h1
    intro d o _ hp
    exact keysOk_setDef _ _ _ hp
  show KeysOk ((processPackage prog.model st pkg).defs)
  refine foldl_pres KeysOk (fun d lits => lits.foldl (processLit prog.model) d)
    pkg.files ?_ _ h2
  intro d lits _ hp
  refine foldl_pres KeysOk (processLit prog.model) lits ?_ d hp
  intro d' cl _ hp'
  exact keysOk_processLit _ _ _ hp'

/-- Membership in the result list, unfolded to a table entry that survives
every filtering rule. -/
theorem mem_checkResult_iff (c : Checker) (prog : LoadedProgram) (o : ObjId) :
    o ∈ checkResult c prog ↔
      ∃ u, (o, u) ∈ (buildState prog).defs ∧
        keepObj c prog.model (buildState prog).interfaces o u = true := by
  unfold checkResult
  rw [List.mem_filterMap]
  constructor
  · rintro ⟨⟨x, u⟩, hmem, hf⟩
    by_cases hk : keepObj c prog.model (buildState prog).interfaces x u = true
    · simp only [hk, if_true, Option.some.injEq] at hf
      subst hf
      exact ⟨u, hmem, hk⟩
    · simp [hk] at hf
  · rintro ⟨u, hmem, hk⟩
    exact ⟨(o, u), hmem, by simp [hk]⟩

/-- A used entry never survives the filter. -/
theorem keepObj_used_false (c : Checker) (m : Model) (ifaces : List TypeId) (o : ObjId) :
    keepObj c m ifaces o true = false := by
  simp [keepObj]

/-- The filter is the kind mask followed by the mode-independent rules. -/
theorem keepObj_factor (c : Checker) (m : Model) (ifaces : List TypeId) (o : ObjId)
    (u : Bool) :
    keepObj c m ifaces o u = (c.checkFlags m o && keepRest m ifaces o u) := by
  cases h : c.checkFlags m o
  · simp [keepObj, h]
  · simp [keepObj, keepRest, h, Bool.and_assoc]

/-- With all five kind bits set the mask rejects nothing. -/
theorem checkFlags_full (m : Model) (o : ObjId) :
    (Checker.mk 31 false).checkFlags m o = true := by
  simp [Checker.checkFlags, Checker.checkFunctions, Checker.checkVariables,
        Checker.checkConstants, Checker.checkTypes, Checker.checkFields,
        CheckConstants, CheckFields, CheckFunctions, CheckTypes, CheckVariables]

/-- A struct field is rejected by every single-kind mask: fields are also
variables, so the Fields bit alone fails the variables clause and the
Variables bit alone fails the fields clause. -/
theorem checkFlags_field_none (m : Model) (o : ObjId)
    (hk : (m.objInfo o).kind = ObjKind.varObj) (hff : (m.objInfo o).fieldFlag = true)
    (mo : CheckMode)
    (hmo : mo ∈ [CheckConstants, CheckFields, CheckFunctions, CheckTypes, CheckVariables]) :
    (Checker.mk mo false).checkFlags m o = false := by
  simp only [List.mem_cons, List.not_mem_nil, or_false] at hmo
  rcases hmo with rfl | rfl | rfl | rfl | rfl <;>
    simp [Checker.checkFlags, Checker.checkFunctions, Checker.checkVariables,
          Checker.checkConstants, Checker.checkTypes, Checker.checkFields,
          CheckConstants, CheckFields, CheckFunctions, CheckTypes, CheckVariables,
          isFunction, isVariable, isConstant, isType, isField, hk, hff] <;> decide

/-- A non-field symbol is accepted by the single-kind mask of its own kind. -/
theorem checkFlags_single_exists (m : Model) (o : ObjId) (hnf : isField m o = false) :
    ∃ mo ∈ [CheckConstants, CheckFields, CheckFunctions, CheckTypes, CheckVariables],
      (Checker.mk mo false).checkFlags m o = true := by
  cases hk : (m.objInfo o).kind with
  | constObj =>
    exact ⟨CheckConstants, by simp,
      by simp [Checker.checkFlags, Checker.checkFunctions, Checker.checkVariables,
               Checker.checkConstants, Checker.checkTypes, Checker.checkFields,
               CheckConstants, CheckFields, CheckFunctions, CheckTypes, CheckVariables,
               isFunction, isVariable, isConstant, isType, isField, hk]⟩
  | varObj =>
    have hff : (m.objInfo o).fieldFlag = false := by
      simpa [isField, hk] using hnf
    exact ⟨CheckVariables, by simp,
      by simp [Checker.checkFlags, Checker.checkFunctions, Checker.checkVariables,
               Checker.checkConstants, Checker.checkTypes, Checker.checkFields,
               CheckConstants, CheckFields, CheckFunctions, CheckTypes, CheckVariables,
               isFunction, isVariable, isConstant, isType, isField, hk, hff]⟩
  | typeNameObj =>
    exact ⟨CheckTypes, by simp,
      by simp [Checker.checkFlags, Checker.checkFunctions, Checker.checkVariables,
               Checker.checkConstants, Checker.checkTypes, Checker.checkFields,
               CheckConstants, CheckFields, CheckFunctions, CheckTypes, CheckVariables,
               isFunction, isVariable, isConstant, isType, isField, hk]⟩
  | funcObj =>
    exact ⟨CheckFunctions, by simp,
      by simp [Checker.checkFlags, Checker.checkFunctions, Checker.checkVariables,
               Checker.checkConstants, Checker.checkTypes, Checker.checkFields,
               CheckConstants, CheckFields, CheckFunctions, CheckTypes, CheckVariables,
               isFunction, isVariable, isConstant, isType, isField, hk]⟩
  | pkgNameObj =>
    exact ⟨CheckConstants, by simp,
      by simp [Checker.checkFlags, Checker.checkFunctions, Checker.checkVariables,
               Checker.checkConstants, Checker.checkTypes, Checker.checkFields,
               CheckConstants, CheckFields, CheckFunctions, CheckTypes, CheckVariables,
               isFunction, isVariable, isConstant, isType, isField, hk]⟩

/-- Processing a literal never removes a key. -/
theorem processLit_isSome (m : Model) (cl : CompLit) (d : DefsTable) (f : ObjId)
    (h : (lookupDef d f).isSome = true) :
    (lookupDef (processLit m d cl) f).isSome = true := by
  cases hst : structTypeOfLit m cl with
  | none => simpa [processLit, hst] using h
  | some st =>
    cases hb : cl.elts.any (fun isKV => !isKV) with
    | false => simpa [processLit, hst, hb] using h
    | true =>
      simp only [processLit, hst, hb, if_true]
      refine foldl_pres (fun d => (lookupDef d f).isSome = true)
        (fun d x => setDef d x true) _ ?_ d h
      intro d' x _ hp
      exact isSome_lookup_setDef _ _ _ _ hp

/-- Processing a package never removes a key. -/
theorem processPackage_isSome (m : Model) (st : AnalysisState) (p : PackageModel)
    (o : ObjId) (h : (lookupDef st.defs o).isSome = true) :
    (lookupDef (processPackage m st p).defs o).isSome = true := by
  have h1 : (lookupDef ((p.defs.foldl (collectDef m) st).defs) o).isSome = true := by
    refine foldl_pres (fun st => (lookupDef st.defs o).isSome = true) (collectDef m)
      p.defs ?_ st h
    intro st' e _ hp
    exact collectDef_lookup_pres m st' e o (fun ob => ob.isSome = true) rfl hp
  have h2 : (lookupDef (p.uses.foldl (fun d x => setDef d x true)
      ((p.defs.foldl (collectDef m) st).defs)) o).isSome = true := by
    refine foldl_pres (fun d => (lookupDef d o).isSome = true)
      (fun d x => setDef d x true) p.uses ?_ _ h1
    intro d x _ hp
    exact isSome_lookup_setDef _ _ _ _ hp
  show (lookupDef (processPackage m st p).defs o).isSome = true
  refine foldl_pres (fun d => (lookupDef d o).isSome = true)
    (fun d lits => lits.foldl (processLit m) d) p.files ?_ _ h2
  intro d lits _ hp
  refine foldl_pres (fun d => (lookupDef d o).isSome = true) (processLit m) lits ?_ d hp
  intro d' cl _ hp'
  exact processLit_isSome m cl d' o hp'

/-- Processing a package that uses the object leaves its key present. -/
theorem processPackage_uses_member (m : Model) (st : AnalysisState) (p : PackageModel)
    (o : ObjId) (h2 : o ∈ p.uses) :
    (lookupDef (processPackage m st p).defs o).isSome = true := by
  have hu : lookupDef (p.uses.foldl (fun d x => setDef d x true)
      ((p.defs.foldl (collectDef m) st).defs)) o = some true :=
    lookup_setTrue_fold_mem _ _ _ h2
  have hbase : (lookupDef (p.uses.foldl (fun d x => setDef d x true)
      ((p.defs.foldl (collectDef m) st).defs)) o).isSome = true := by
    rw [hu]; rfl
  show (lookupDef (processPackage m st p).defs o).isSome = true
  refine foldl_pres (fun d => (lookupDef d o).isSome = true)
    (fun d lits => lits.foldl (processLit m) d) p.files ?_ _ hbase
  intro d lits _ hp
  refine foldl_pres (fun d => (lookupDef d o).isSome = true) (processLit m) lits ?_ d hp
  intro d' cl _ hp'
  exact processLit_isSome m cl d' o hp'

/-- The interface contract list only grows. -/
theorem collectDef_iface_mono (m : Model) (st : AnalysisState) (e : Option ObjId)
    (t : TypeId) (h : t ∈ st.interfaces) :
    t ∈ (collectDef m st e).interfaces := by
  cases e with
  | none => exact h
  | some o =>
    by_cases h1 : ((m.objInfo o).kind = ObjKind.varObj ∧
        (m.typeInfo ((m.objInfo o).typeId)).kind = TypeKind.ifaceK)
    · by_cases h2 : ((m.objInfo o).kind = ObjKind.typeNameObj ∧
          (m.typeInfo (underlyingOf m ((m.objInfo o).typeId))).kind = TypeKind.ifaceK)
      · simp [collectDef, h1, h2, h]
      · simp [collectDef, h1, h2, h]
    · by_cases h2 : ((m.objInfo o).kind = ObjKind.typeNameObj ∧
          (m.typeInfo (underlyingOf m ((m.objInfo o).typeId))).kind = TypeKind.ifaceK)
      · simp [collectDef, h1, h2, h]
      · simp [collectDef, h1, h2, h]

/-- A variable whose written type is an interface shape contributes its type
to the contract list. -/
theorem collectDef_iface_var (m : Model) (st : AnalysisState) (o : ObjId)
    (hk : (m.objInfo o).kind = ObjKind.varObj)
    (hi : (m.typeInfo ((m.objInfo o).typeId)).kind = TypeKind.ifaceK) :
    (m.objInfo o).typeId ∈ (collectDef m st (some o)).interfaces := by
  have h1 : ((m.objInfo o).kind = ObjKind.varObj ∧
      (m.typeInfo ((m.objInfo o).typeId)).kind = TypeKind.ifaceK) := ⟨hk, hi⟩
  have h2 : ¬ ((m.objInfo o).kind = ObjKind.typeNameObj ∧
      (m.typeInfo (underlyingOf m ((m.objInfo o).typeId))).kind = TypeKind.ifaceK) := by
    simp [hk]
  simp [collectDef, h1, h2]

/-- A type name whose underlying type is an interface shape contributes that
underlying interface to the contract list. -/
theorem collectDef_iface_typeName (m : Model) (st : AnalysisState) (o : ObjId)
    (hk : (m.objInfo o).kind = ObjKind.typeNameObj)
    (hi : (m.typeInfo (underlyingOf m ((m.objInfo o).typeId))).kind = TypeKind.ifaceK) :
    underlyingOf m ((m.objInfo o).typeId) ∈ (collectDef m st (some o)).interfaces := by
  have h1 : ¬ ((m.objInfo o).kind = ObjKind.varObj ∧
      (m.typeInfo ((m.objInfo o).typeId)).kind = TypeKind.ifaceK) := by
    simp [hk]
  have h2 : ((m.objInfo o).kind = ObjKind.typeNameObj ∧
      (m.typeInfo (underlyingOf m ((m.objInfo o).typeId))).kind = TypeKind.ifaceK) := ⟨hk, hi⟩
  simp [collectDef, h1, h2]

/-- Package processing preserves collected contracts. -/
theorem processPackage_iface_mono (m : Model) (st : AnalysisState) (p : PackageModel)
    (t : TypeId) (h : t ∈ st.interfaces) :
    t ∈ (processPackage m st p).interfaces := by
  show t ∈ (p.defs.foldl (collectDef m) st).interfaces
  refine foldl_pres (fun st => t ∈ st.interfaces) (collectDef m) p.defs ?_ st h
  intro st' e _ hp
  exact collectDef_iface_mono m st' e t hp

/-- Soundness of the resolution loop: a run without error has rewritten every
path with its canonical image. -/
theorem resolveRelative_ok (resolve : String → Option String) :
    ∀ (paths paths' : List String),
      resolveRelative resolve paths = (paths', false) →
      paths'.length = paths.length ∧
      ∀ pq ∈ paths.zip paths', resolve pq.1 = some pq.2
  | [], paths', h => by
    simp only [resolveRelative, Prod.mk.injEq] at h
    obtain ⟨h1, _⟩ := h
    subst h1
    simp
  | p :: rest, paths', h => by
    cases hr : resolve p with
    | none => simp [resolveRelative, hr] at h
    | some q =>
      rcases hrest : resolveRelative resolve rest with ⟨r1, r2⟩
      simp only [resolveRelative, hr, hrest, Prod.mk.injEq] at h
      obtain ⟨h1, h2⟩ := h
      subst h1
      subst h2
      obtain ⟨hl, hz⟩ := resolveRelative_ok resolve rest r1 hrest
      refine ⟨by simp [hl], ?_⟩
      intro pq hpq
      rcases List.mem_cons.mp (by simpa using hpq) with h0 | h0
      · subst h0; simpa using hr
      · exact hz pq h0

/-- The table produced by one Defs entry, with the insertion conditions made
explicit: unchanged, or a false-valued write of a non-skipped, non-package
name entry. -/
theorem collectDef_defs_strong (m : Model) (st : AnalysisState) (e : Option ObjId) :
    (collectDef m st e).defs = st.defs ∨
      ∃ o, e = some o ∧
        (isVariable m o && !(isPkgScope m o) && !(isField m o)) = false ∧
        (m.objInfo o).kind ≠ ObjKind.pkgNameObj ∧
        (collectDef m st e).defs = setDef st.defs o false := by
  cases e with
  | none => exact Or.inl rfl
  | some o =>
    by_cases h1 : (isVariable m o && !(isPkgScope m o) && !(isField m o)) = true
    · left; simp [collectDef, h1]
    · by_cases h2 : (m.objInfo o).kind = ObjKind.pkgNameObj
      · left; simp [collectDef, h1, h2]
      · right
        refine ⟨o, rfl, ?_, h2, by simp [collectDef, h1, h2]⟩
        cases hb : (isVariable m o && !(isPkgScope m o) && !(isField m o))
        · rfl
        · exact absurd hb h1

/-- A key present after one write was the written key or was present
before. -/
theorem isSome_setDef_cases (t : DefsTable) (k o : ObjId) (b : Bool)
    (h : (lookupDef (setDef t k b) o).isSome = true) :
    o = k ∨ (lookupDef t o).isSome = true := by
  by_cases ho : o = k
  · exact Or.inl ho
  · rw [lookupDef_setDef_ne _ _ ho] at h
    exact Or.inr h

/-- A key present after a fold of true-valued writes was written by the fold
or was present before. -/
theorem isSome_setTrue_fold_cases : ∀ (l : List ObjId) (d : DefsTable) (o : ObjId),
    (lookupDef (l.foldl (fun d x => setDef d x true) d) o).isSome = true →
    o ∈ l ∨ (lookupDef d o).isSome = true
  | [], _, _, h => Or.inr h
  | a :: t, d, o, h => by
    rcases isSome_setTrue_fold_cases t (setDef d a true) o h with h0 | h0
    · exact Or.inl (List.mem_cons_of_mem _ h0)
    · rcases isSome_setDef_cases d a o true h0 with h1 | h1
      · exact Or.inl (h1 ▸ List.mem_cons_self a t)
      · exact Or.inr h1

/-- A key present after one Defs entry is the inserted candidate or was
present before. -/
theorem isSome_collectDef_cases (m : Model) (st : AnalysisState) (e : Option ObjId)
    (o : ObjId) (h : (lookupDef (collectDef m st e).defs o).isSome = true) :
    (e = some o ∧
      (isVariable m o && !(isPkgScope m o) && !(isField m o)) = false ∧
      (m.objInfo o).kind ≠ ObjKind.pkgNameObj) ∨
    (lookupDef st.defs o).isSome = true := by
  rcases collectDef_defs_strong m st e with h0 | ⟨o', he, hskip, hpkg, h0⟩
  · rw [h0] at h; exact Or.inr h
  · rw [h0] at h
    rcases isSome_setDef_cases _ o' o false h with h1 | h1
    · subst h1; exact Or.inl ⟨he, hskip, hpkg⟩
    · exact Or.inr h1

/-- A key present after a whole Defs pass is a candidate of that pass or was
present before. -/
theorem isSome_collectDef_fold_cases (m : Model) :
    ∀ (l : List (Option ObjId)) (st : AnalysisState) (o : ObjId),
    (lookupDef ((l.foldl (collectDef m) st).defs) o).isSome = true →
    (some o ∈ l ∧
      (isVariable m o && !(isPkgScope m o) && !(isField m o)) = false ∧
      (m.objInfo o).kind ≠ ObjKind.pkgNameObj) ∨
    (lookupDef st.defs o).isSome = true
  | [], _, _, h => Or.inr h
  | e :: t, st, o, h => by
    rcases isSome_collectDef_fold_cases m t (collectDef m st e) o h with ⟨h1, h2, h3⟩ | h0
    · exact Or.inl ⟨List.mem_cons_of_mem _ h1, h2, h3⟩
    · rcases isSome_collectDef_cases m st e o h0 with ⟨he, h2, h3⟩ | h1
      · refine Or.inl ⟨?_, h2, h3⟩
        rw [← he]
        exact List.mem_cons_self e t
      · exact Or.inr h1

/-- A key present after one literal was marked by it or was present
before. -/
theorem isSome_processLit_cases (m : Model) (cl : CompLit) (d : DefsTable) (o : ObjId)
    (h : (lookupDef (processLit m d cl) o).isSome = true) :
    litMarksField m cl o = true ∨ (lookupDef d o).isSome = true := by
  cases hst : structTypeOfLit m cl with
  | none =>
    rw [show processLit m d cl = d from by simp [processLit, hst]] at h
    exact Or.inr h
  | some st =>
    cases hb : cl.elts.any (fun isKV => !isKV) with
    | false =>
      rw [show processLit m d cl = d from by simp [processLit, hst, hb]] at h
      exact Or.inr h
    | true =>
      rw [show processLit m d cl =
          (m.typeInfo st).fields.foldl (fun d f => setDef d f true) d from by
        simp [processLit, hst, hb]] at h
      rcases isSome_setTrue_fold_cases _ d o h with h0 | h0
      · left
        simp [litMarksField, hst, hb, h0]
      · exact Or.inr h0

/-- A key present after one file of literals was marked by one of them or
was present before. -/
theorem isSome_one_file_cases (m : Model) :
    ∀ (lits : List CompLit) (d : DefsTable) (o : ObjId),
    (lookupDef (lits.foldl (processLit m) d) o).isSome = true →
    (∃ cl ∈ lits, litMarksField m cl o = true) ∨ (lookupDef d o).isSome = true
  | [], _, _, h => Or.inr h
  | cl :: rest, d, o, h => by
    rcases isSome_one_file_cases m rest (processLit m d cl) o h with ⟨cl', hcl', hm⟩ | h0
    · exact Or.inl ⟨cl', List.mem_cons_of_mem _ hcl', hm⟩
    · rcases isSome_processLit_cases m cl d o h0 with h1 | h1
      · exact Or.inl ⟨cl, List.mem_cons_self _ _, h1⟩
      · exact Or.inr h1

/-- A key present after the literal walk of every file was marked by some
literal or was present before. -/
theorem isSome_lits_fold_cases (m : Model) :
    ∀ (files : List (List CompLit)) (d : DefsTable) (o : ObjId),
    (lookupDef (files.foldl (fun d lits => lits.foldl (processLit m) d) d) o).isSome =
      true →
    (∃ file ∈ files, ∃ cl ∈ file, litMarksField m cl o = true) ∨
    (lookupDef d o).isSome = true
  | [], _, _, h => Or.inr h
  | file :: rest, d, o, h => by
    rcases isSome_lits_fold_cases m rest (file.foldl (processLit m) d) o h with
      ⟨f, hf, cl, hcl, hm⟩ | h0
    · exact Or.inl ⟨f, List.mem_cons_of_mem _ hf, cl, hcl, hm⟩
    · rcases isSome_one_file_cases m file d o h0 with ⟨cl, hcl, hm⟩ | h1
      · exact Or.inl ⟨file, List.mem_cons_self _ _, cl, hcl, hm⟩
      · exact Or.inr h1

/-- A key present after one package was present before or entered through
one of the three writes of the package: the Defs pass (candidate insertion),
the Uses pass, or the composite-literal walk. -/
theorem processPackage_isSome_cases (m : Model) (st : AnalysisState) (p : PackageModel)
    (o : ObjId)
    (h : (lookupDef (processPackage m st p).defs o).isSome = true) :
    (lookupDef st.defs o).isSome = true ∨
    (some o ∈ p.defs ∧
      (isVariable m o && !(isPkgScope m o) && !(isField m o)) = false ∧
      (m.objInfo o).kind ≠ ObjKind.pkgNameObj) ∨
    o ∈ p.uses ∨
    (∃ file ∈ p.files, ∃ cl ∈ file, litMarksField m cl o = true) := by
  have h' : (lookupDef (p.files.foldl (fun d lits => lits.foldl (processLit m) d)
      (p.uses.foldl (fun d x => setDef d x true)
        ((p.defs.foldl (collectDef m) st).defs))) o).isSome = true := h
  rcases isSome_lits_fold_cases m p.files _ o h' with hlit | h0
  · exact Or.inr (Or.inr (Or.inr hlit))
  · rcases isSome_setTrue_fold_cases p.uses _ o h0 with huse | h1
    · exact Or.inr (Or.inr (Or.inl huse))
    · rcases isSome_collectDef_fold_cases m p.defs st o h1 with hc | h2
      · exact Or.inr (Or.inl hc)
      · exact Or.inl h2

/-- Processing a package that holds the object as a candidate definition
leaves its key present. -/
theorem processPackage_candidate_member (m : Model) (st : AnalysisState)
    (p : PackageModel) (o : ObjId) (hdef : some o ∈ p.defs)
    (hskip : (isVariable m o && !(isPkgScope m o) && !(isField m o)) = false)
    (hpkg : (m.objInfo o).kind ≠ ObjKind.pkgNameObj) :
    (lookupDef (processPackage m st p).defs o).isSome = true := by
  have h1 : (lookupDef ((p.defs.foldl (collectDef m) st).defs) o).isSome = true := by
    refine foldl_estab (fun st => (lookupDef st.defs o).isSome = true) (collectDef m)
      p.defs (some o) hdef ?_ ?_ st
    · intro s
      rw [collectDef_inserts m s o hskip hpkg]
      rfl
    · intro s e _ hp
      exact collectDef_lookup_pres m s e o (fun ob => ob.isSome = true) rfl hp
  have h2 : (lookupDef (p.uses.foldl (fun d x => setDef d x true)
      ((p.defs.foldl (collectDef m) st).defs)) o).isSome = true := by
    refine foldl_pres (fun d => (lookupDef d o).isSome = true)
      (fun d x => setDef d x true) p.uses ?_ _ h1
    intro d x _ hp
    exact isSome_lookup_setDef _ _ _ _ hp
  show (lookupDef (processPackage m st p).defs o).isSome = true
  refine foldl_pres (fun d => (lookupDef d o).isSome = true)
    (fun d lits => lits.foldl (processLit m) d) p.files ?_ _ h2
  intro d lits _ hp
  refine foldl_pres (fun d => (lookupDef d o).isSome = true) (processLit m) lits ?_ d hp
  intro d' cl _ hp'
  exact processLit_isSome m cl d' o hp'

/-- Processing a package one of whose literals marks the object leaves its
key present. -/
theorem processPackage_lit_member (m : Model) (st : AnalysisState) (p : PackageModel)
    (o : ObjId) (file : List CompLit) (cl : CompLit)
    (hfile : file ∈ p.files) (hcl : cl ∈ file)
    (hmark : litMarksField m cl o = true) :
    (lookupDef (processPackage m st p).defs o).isSome = true := by
  have hmark' : ∃ stp, structTypeOfLit m cl = some stp ∧
      cl.elts.any (fun isKV => !isKV) = true ∧ o ∈ (m.typeInfo stp).fields := by
    cases hst : structTypeOfLit m cl with
    | none => simp [litMarksField, hst] at hmark
    | some stp =>
      simp only [litMarksField, hst, Bool.and_eq_true, decide_eq_true_eq] at hmark
      exact ⟨stp, rfl, hmark.1, hmark.2⟩
  obtain ⟨stp, hst, hb, hfld⟩ := hmark'
  show (lookupDef (processPackage m st p).defs o).isSome = true
  refine foldl_estab (fun d => (lookupDef d o).isSome = true)
    (fun d lits => lits.foldl (processLit m) d) p.files file hfile ?_ ?_ _
  · intro d
    refine foldl_estab (fun d => (lookupDef d o).isSome = true) (processLit m)
      file cl hcl ?_ ?_ d
    · intro d'
      rw [processLit_marks m cl d' o stp hst hb hfld]
      rfl
    · intro d' cl' _ hp
      exact processLit_isSome m cl' d' o hp
  · intro d lits _ hp
    refine foldl_pres (fun d => (lookupDef d o).isSome = true) (processLit m) lits ?_ d hp
    intro d' cl' _ hp'
    exact processLit_isSome m cl' d' o hp'

/-- C1 counterexample: in a program whose struct is initialized only through
the keyed literal, the never-referenced field (object 2) stays unused in the
table, yet with the Fields bit alone the result list is empty — the field
does not appear even though fields are selected by the mask, because a field
is also a variable and the mask rejects it in the variables clause. -/
theorem C1_counterexample :
    lookupDef (buildState progKeyed).defs 2 = some false ∧
    2 ∉ checkResult (Checker.mk CheckFields false) progKeyed ∧
    checkResult (Checker.mk CheckFields false) progKeyed = [] := by decide

/-- C1 (amended): in a single-package analysis, (1) a composite literal with
a positional element marks every field of its struct type used, and none of
those fields appears in the result under any configuration; (2) a field of a
struct initialized only through keyed literals, never otherwise referenced,
not named with the discard identifier, unexported, appears in the result
when the mask has both the Variables and the Fields bits set. -/
theorem C1_positional_struct_literal :
    (∀ (c : Checker) (m : Model) (p : PackageModel) (file : List CompLit) (cl : CompLit)
        (st : TypeId) (f : ObjId),
        file ∈ p.files → cl ∈ file →
        structTypeOfLit m cl = some st →
        cl.elts.any (fun isKV => !isKV) = true →
        f ∈ (m.typeInfo st).fields →
        lookupDef (buildState ⟨m, [p]⟩).defs f = some true ∧
          f ∉ checkResult c ⟨m, [p]⟩) ∧
    (∀ (c : Checker) (m : Model) (p : PackageModel) (f : ObjId),
        some f ∈ p.defs →
        (m.objInfo f).kind = ObjKind.varObj →
        (m.objInfo f).fieldFlag = true →
        (m.objInfo f).pkgName.isSome = true →
        f ∉ p.uses →
        (∀ file ∈ p.files, ∀ cl ∈ file, litMarksField m cl f = false) →
        (m.objInfo f).name ≠ "_" →
        (m.objInfo f).exported = false →
        c.checkVariables = true →
        c.checkFields = true →
        f ∈ checkResult c ⟨m, [p]⟩) := by
  constructor
  · intro c m p file cl st f hfile hcl hst hb hf
    have hlook : lookupDef (buildState ⟨m, [p]⟩).defs f = some true := by
      show lookupDef (processPackage m ⟨[], []⟩ p).defs f = some true
      refine foldl_estab (fun d => lookupDef d f = some true)
        (fun d lits => lits.foldl (processLit m) d) p.files file hfile ?_ ?_ _
      · intro d
        refine foldl_estab (fun d => lookupDef d f = some true) (processLit m)
          file cl hcl ?_ ?_ d
        · intro d'
          exact processLit_marks m cl d' f st hst hb hf
        · intro d' cl' _ hp
          exact processLit_pres_true m cl' d' f hp
      · intro d lits _ hp
        refine foldl_pres (fun d => lookupDef d f = some true) (processLit m) lits ?_ d hp
        intro d' cl' _ hp'
        exact processLit_pres_true m cl' d' f hp'
    refine ⟨hlook, ?_⟩
    intro hmem
    rcases (mem_checkResult_iff c ⟨m, [p]⟩ f).mp hmem with ⟨u, ht, hkeep⟩
    have hu' : u = false := by
      cases u
      · rfl
      · rw [keepObj_used_false] at hkeep
        exact absurd hkeep (by simp)
    subst hu'
    have hlf := lookupDef_of_mem _ f false (keysOk_buildState ⟨m, [p]⟩) ht
    rw [hlf] at hlook
    simp at hlook
  · intro c m p f hdef hk hff hpk huse hnom hname hexp hcv hcf
    have hlook : lookupDef (buildState ⟨m, [p]⟩).defs f = some false := by
      show lookupDef (processPackage m ⟨[], []⟩ p).defs f = some false
      have h1 : lookupDef ((p.defs.foldl (collectDef m) ⟨[], []⟩).defs) f = some false := by
        refine foldl_estab (fun st => lookupDef st.defs f = some false) (collectDef m)
          p.defs (some f) hdef ?_ ?_ _
        · intro s
          refine collectDef_inserts m s f ?_ ?_
          · simp [isField, hk, hff]
          · simp [hk]
        · intro s e _ hp
          exact collectDef_lookup_pres m s e f (fun ob => ob = some false) rfl hp
      have h2 : lookupDef (p.uses.foldl (fun d x => setDef d x true)
          ((p.defs.foldl (collectDef m) ⟨[], []⟩).defs)) f = some false := by
        rw [lookup_setTrue_fold_not_mem _ _ _ huse]
        exact h1
      refine foldl_pres (fun d => lookupDef d f = some false)
        (fun d lits => lits.foldl (processLit m) d) p.files ?_ _ h2
      intro d lits hl hp
      refine foldl_pres (fun d => lookupDef d f = some false) (processLit m) lits ?_ d hp
      intro d' cl hcl hp'
      rw [processLit_not_marks m cl d' f (hnom lits hl cl hcl)]
      exact hp'
    have hmem : (f, false) ∈ (buildState ⟨m, [p]⟩).defs := mem_of_lookupDef _ _ _ hlook
    refine (mem_checkResult_iff c ⟨m, [p]⟩ f).mpr ⟨false, hmem, ?_⟩
    have hcflag : c.checkFlags m f = true := by
      simp [Checker.checkFlags, isFunction, isVariable, isConstant, isType, isField,
            hk, hff, hcv, hcf]
    have hfun : isFunction m f = false := by simp [isFunction, hk]
    have hmeth : isMethod m f = false := by simp [isMethod, hfun]
    have hmain : isMain m f = false := by simp [isMain, hfun]
    simp [keepObj, hpk, hcflag, hname, hexp, hmain, hfun, hmeth]

/-- C1 witness: the positional program marks field 1 used and reports
nothing; the keyed program reports field 2 once both the Variables and the
Fields bits are set. -/
theorem C1_positional_struct_literal_witness :
    (lookupDef (buildState ⟨mdl, [pkgPos]⟩).defs 1 = some true ∧
      1 ∉ checkResult (Checker.mk 31 false) ⟨mdl, [pkgPos]⟩) ∧
    2 ∈ checkResult (Checker.mk 18 false) ⟨mdl, [pkgKeyed]⟩ := by
  constructor
  · exact C1_positional_struct_literal.1 (Checker.mk 31 false) mdl pkgPos [litPos] litPos 1 1
      (by decide) (by decide) (by decide) (by decide) (by decide)
  · exact C1_positional_struct_literal.2 (Checker.mk 18 false) mdl pkgKeyed 2
      (by decide) (by decide) (by decide) (by decide) (by decide) (by decide)
      (by decide) (by decide) (by decide) (by decide)

/-- C2: an unreferenced method whose receiver type satisfies a collected
interface contract declaring a method of the same name never appears in the
result list. -/
theorem C2_interface_amnesty (c : Checker) (prog : LoadedProgram) (o : ObjId) (u : Bool)
    (rt : TypeId)
    (ht : (o, u) ∈ (buildState prog).defs) (hu : u = false)
    (hm : isMethod prog.model o = true)
    (hr : (prog.model.typeInfo ((prog.model.objInfo o).typeId)).recv = some rt)
    (hsat : ∃ t ∈ (buildState prog).interfaces,
        typesImplements prog.model rt t = true ∧
        ∃ ms ∈ (prog.model.typeInfo t).ifaceMethods,
          ms.name = (prog.model.objInfo o).name) :
    o ∉ checkResult c prog := by
  intro hmem
  rcases (mem_checkResult_iff c prog o).mp hmem with ⟨u', _, hkeep⟩
  have himp : implements prog.model o (buildState prog).interfaces = true := by
    rcases hsat with ⟨t, htm, himpl, ms, hms, hname⟩
    simp only [implements, hr]
    rw [List.any_eq_true]
    refine ⟨t, htm, ?_⟩
    rw [Bool.and_eq_true]
    refine ⟨himpl, ?_⟩
    rw [List.any_eq_true]
    exact ⟨ms, hms, decide_eq_true hname⟩
  simp [keepObj, hm, himp] at hkeep

/-- C2 witness: the Write method of the receiver type implementing the
collected contract is not reported. -/
theorem C2_interface_amnesty_witness : 6 ∉ checkResult (Checker.mk 31 false) progIface :=
  C2_interface_amnesty (Checker.mk 31 false) progIface 6 false 6
    (by decide) rfl (by decide) (by decide)
    ⟨3, by decide, by decide, ⟨"Write", 7⟩, by decide, by decide⟩

/-- C3 counterexample: with only the never-referenced field object 2 in the
program, the all-kinds run reports it while every single-kind run reports
nothing, so the union of the single-kind results is not the all-kinds
result. -/
theorem C3_counterexample :
    checkResult (Checker.mk (CheckConstants ||| CheckFields ||| CheckFunctions |||
      CheckTypes ||| CheckVariables) false) progFieldOnly = [2] ∧
    checkResult (Checker.mk CheckConstants false) progFieldOnly = [] ∧
    checkResult (Checker.mk CheckFields false) progFieldOnly = [] ∧
    checkResult (Checker.mk CheckFunctions false) progFieldOnly = [] ∧
    checkResult (Checker.mk CheckTypes false) progFieldOnly = [] ∧
    checkResult (Checker.mk CheckVariables false) progFieldOnly = [] := by decide

/-- C3 (amended): the union of the five single-kind results equals the
all-kinds result restricted to non-field symbols; a struct field is in no
single-kind result because fields are also variables, so reporting a field
needs both the Variables and the Fields bits. -/
theorem C3_mask_union (prog : LoadedProgram) (o : ObjId) :
    (∃ mo ∈ [CheckConstants, CheckFields, CheckFunctions, CheckTypes, CheckVariables],
        o ∈ checkResult (Checker.mk mo false) prog) ↔
      (o ∈ checkResult
          (Checker.mk (CheckConstants ||| CheckFields ||| CheckFunctions |||
            CheckTypes ||| CheckVariables) false) prog ∧
        isField prog.model o = false) := by
  have heq : (CheckConstants ||| CheckFields ||| CheckFunctions ||| CheckTypes |||
      CheckVariables : CheckMode) = 31 := by decide
  rw [heq]
  constructor
  · rintro ⟨mo, hmo, hmem⟩
    rcases (mem_checkResult_iff _ prog o).mp hmem with ⟨u, ht, hkeep⟩
    rw [keepObj_factor, Bool.and_eq_true] at hkeep
    obtain ⟨hflag, hrest⟩ := hkeep
    have hnf : isField prog.model o = false := by
      cases hif : isField prog.model o
      · rfl
      · have hk : (prog.model.objInfo o).kind = ObjKind.varObj ∧
            (prog.model.objInfo o).fieldFlag = true := by
          simpa [isField, Bool.and_eq_true, decide_eq_true_eq] using hif
        have hz := checkFlags_field_none prog.model o hk.1 hk.2 mo hmo
        rw [hz] at hflag
        simp at hflag
    refine ⟨(mem_checkResult_iff _ prog o).mpr ⟨u, ht, ?_⟩, hnf⟩
    rw [keepObj_factor, checkFlags_full, Bool.true_and]
    exact hrest
  · rintro ⟨hmem, hnf⟩
    rcases (mem_checkResult_iff _ prog o).mp hmem with ⟨u, ht, hkeep⟩
    rw [keepObj_factor, Bool.and_eq_true] at hkeep
    obtain ⟨hfull, hrest⟩ := hkeep
    obtain ⟨mo, hmo, hflag⟩ := checkFlags_single_exists prog.model o hnf
    exact ⟨mo, hmo, (mem_checkResult_iff _ prog o).mpr ⟨u, ht,
      by rw [keepObj_factor, hflag, Bool.true_and]; exact hrest⟩⟩

/-- C4: the used flag is not monotonic across packages.  The first package
uses object 13, setting its flag true; the second package defines it, and
the Defs pass writes false over the true flag; the filtering phase then
reports the referenced symbol as unused. -/
theorem C4_used_flag_reset :
    lookupDef (processPackage mdl ⟨[], []⟩ pkgUserFirst).defs 13 = some true ∧
    lookupDef (buildState progReset).defs 13 = some false ∧
    13 ∈ checkResult (Checker.mk 31 false) progReset := by decide

/-- C5: (1) an exported symbol that is package scope, a method or a field is
never reported when its file is not a test file or its name has a Test,
Benchmark or Example prefix; (2) an exported symbol in a test file without
such a prefix stays a candidate: when its table entry is unused and no other
rule fires, it is reported. -/
theorem C5_export_amnesty :
    (∀ (c : Checker) (prog : LoadedProgram) (o : ObjId),
        (prog.model.objInfo o).exported = true →
        (isPkgScope prog.model o || isMethod prog.model o || isField prog.model o) = true →
        (!(hasSuffixS (prog.model.objInfo o).fileName "_test.go") ||
         hasPrefixS (prog.model.objInfo o).name "Test" ||
         hasPrefixS (prog.model.objInfo o).name "Benchmark" ||
         hasPrefixS (prog.model.objInfo o).name "Example") = true →
        o ∉ checkResult c prog) ∧
    (∀ (c : Checker) (prog : LoadedProgram) (o : ObjId),
        (o, false) ∈ (buildState prog).defs →
        (prog.model.objInfo o).exported = true →
        (prog.model.objInfo o).pkgName.isSome = true →
        c.checkFlags prog.model o = true →
        (prog.model.objInfo o).name ≠ "_" →
        hasSuffixS (prog.model.objInfo o).fileName "_test.go" = true →
        hasPrefixS (prog.model.objInfo o).name "Test" = false →
        hasPrefixS (prog.model.objInfo o).name "Benchmark" = false →
        hasPrefixS (prog.model.objInfo o).name "Example" = false →
        isMain prog.model o = false →
        (isFunction prog.model o && !(isMethod prog.model o) &&
          decide ((prog.model.objInfo o).name = "init")) = false →
        (isMethod prog.model o &&
          implements prog.model o (buildState prog).interfaces) = false →
        o ∈ checkResult c prog) := by
  constructor
  · intro c prog o hx hs hf hmem
    rcases (mem_checkResult_iff c prog o).mp hmem with ⟨u, _, hkeep⟩
    simp [keepObj, hx, hs, hf] at hkeep
  · intro c prog o hmem hx hpk hcf hname htest h1 h2 h3 hm hinit himpl
    refine (mem_checkResult_iff c prog o).mpr ⟨false, hmem, ?_⟩
    simp [keepObj, hx, hpk, hcf, hname, htest, h1, h2, h3, hm, hinit, himpl]

/-- C5 witness: the exported function in a normal file is suppressed; the
exported Helper in a test file is reported. -/
theorem C5_export_amnesty_witness :
    11 ∉ checkResult (Checker.mk 31 false) progExported ∧
    10 ∈ checkResult (Checker.mk 31 false) progTestHelper := by
  constructor
  · exact C5_export_amnesty.1 (Checker.mk 31 false) progExported 11
      (by decide) (by decide) (by decide)
  · exact C5_export_amnesty.2 (Checker.mk 31 false) progTestHelper 10
      (by decide) (by decide) (by decide) (by decide) (by decide) (by decide)
      (by decide) (by decide) (by decide) (by decide) (by decide) (by decide)

/-- C6 counterexample: object 4 is a variable whose type is the named type I
whose underlying type is an interface shape, yet after construction the
contract list is empty — the variable branch of the source asserts the
declared type directly and does not look through the underlying type. -/
theorem C6_counterexample :
    (mdl.objInfo 4).kind = ObjKind.varObj ∧
    (mdl.typeInfo (underlyingOf mdl ((mdl.objInfo 4).typeId))).kind = TypeKind.ifaceK ∧
    (buildState progNamedIfaceVar).interfaces = [] := by decide

/-- C6 (amended): a type declaration whose underlying type is an interface
shape contributes that interface to the contract list; a variable
contributes its type exactly when the declared type is itself an interface
shape (not merely reducible to one). -/
theorem C6_interface_collection :
    (∀ (prog : LoadedProgram) (pkg : PackageModel) (o : ObjId),
        pkg ∈ prog.pkgs → some o ∈ pkg.defs →
        (prog.model.objInfo o).kind = ObjKind.typeNameObj →
        (prog.model.typeInfo
            (underlyingOf prog.model ((prog.model.objInfo o).typeId))).kind =
          TypeKind.ifaceK →
        underlyingOf prog.model ((prog.model.objInfo o).typeId) ∈
          (buildState prog).interfaces) ∧
    (∀ (prog : LoadedProgram) (pkg : PackageModel) (o : ObjId),
        pkg ∈ prog.pkgs → some o ∈ pkg.defs →
        (prog.model.objInfo o).kind = ObjKind.varObj →
        (prog.model.typeInfo ((prog.model.objInfo o).typeId)).kind = TypeKind.ifaceK →
        (prog.model.objInfo o).typeId ∈ (buildState prog).interfaces) := by
  constructor
  · intro prog pkg o hpkg ho hk hi
    refine foldl_estab
      (fun st => underlyingOf prog.model ((prog.model.objInfo o).typeId) ∈ st.interfaces)
      (processPackage prog.model) prog.pkgs pkg hpkg ?_ ?_ ⟨[], []⟩
    · intro st
      show underlyingOf prog.model ((prog.model.objInfo o).typeId) ∈
        (pkg.defs.foldl (collectDef prog.model) st).interfaces
      refine foldl_estab
        (fun st => underlyingOf prog.model ((prog.model.objInfo o).typeId) ∈ st.interfaces)
        (collectDef prog.model) pkg.defs (some o) ho ?_ ?_ st
      · intro s
        exact collectDef_iface_typeName prog.model s o hk hi
      · intro s e _ hp
        exact collectDef_iface_mono prog.model s e _ hp
    · intro st p _ hp
      exact processPackage_iface_mono prog.model st p _ hp
  · intro prog pkg o hpkg ho hk hi
    refine foldl_estab
      (fun st => (prog.model.objInfo o).typeId ∈ st.interfaces)
      (processPackage prog.model) prog.pkgs pkg hpkg ?_ ?_ ⟨[], []⟩
    · intro st
      show (prog.model.objInfo o).typeId ∈
        (pkg.defs.foldl (collectDef prog.model) st).interfaces
      refine foldl_estab
        (fun st => (prog.model.objInfo o).typeId ∈ st.interfaces)
        (collectDef prog.model) pkg.defs (some o) ho ?_ ?_ st
      · intro s
        exact collectDef_iface_var prog.model s o hk hi
      · intro s e _ hp
        exact collectDef_iface_mono prog.model s e _ hp
    · intro st p _ hp
      exact processPackage_iface_mono prog.model st p _ hp

/-- C6 witness: the type name I contributes its underlying interface; the
variable written with the bare interface shape contributes it as well. -/
theorem C6_interface_collection_witness :
    3 ∈ (buildState progIfaceType).interfaces ∧
    3 ∈ (buildState progIfaceVar).interfaces := by
  constructor
  · exact C6_interface_collection.1 progIfaceType pkgIfaceType 3
      (by decide) (by decide) (by decide) (by decide)
  · exact C6_interface_collection.2 progIfaceVar pkgIfaceVar 12
      (by decide) (by decide) (by decide) (by decide)

/-- C7 counterexample: the local variable object 5 is skipped by the
candidate rules, so the Defs pass alone leaves the table empty; processing
its usage then inserts it with used true — the usage is not a no-op on
table membership. -/
theorem C7_counterexample :
    (buildState progLocalOnly).defs = [] ∧
    (buildState progLocalUse).defs = [(5, true)] := by decide

/-- C7 (amended): a Symbol is present in the Definition Table iff some
analyzed package inserted it as a candidate definition, used it, or marked
it as a field of a positionally initialized struct literal; in particular a
usage of a Symbol not already in the table is not a no-op — Go map
assignment inserts the key with used true. -/
theorem C7_usage_insertion (prog : LoadedProgram) (o : ObjId) :
    (lookupDef (buildState prog).defs o).isSome = true ↔
      ∃ pkg ∈ prog.pkgs,
        (some o ∈ pkg.defs ∧
          (isVariable prog.model o && !(isPkgScope prog.model o) &&
            !(isField prog.model o)) = false ∧
          (prog.model.objInfo o).kind ≠ ObjKind.pkgNameObj) ∨
        o ∈ pkg.uses ∨
        ∃ file ∈ pkg.files, ∃ cl ∈ file, litMarksField prog.model cl o = true := by
  constructor
  · intro h
    refine foldl_pres
      (fun st => ∀ x, (lookupDef st.defs x).isSome = true →
        ∃ pkg ∈ prog.pkgs,
          (some x ∈ pkg.defs ∧
            (isVariable prog.model x && !(isPkgScope prog.model x) &&
              !(isField prog.model x)) = false ∧
            (prog.model.objInfo x).kind ≠ ObjKind.pkgNameObj) ∨
          x ∈ pkg.uses ∨
          ∃ file ∈ pkg.files, ∃ cl ∈ file, litMarksField prog.model cl x = true)
      (processPackage prog.model) prog.pkgs ?_ ⟨[], []⟩ ?_ o h
    · intro st pkg hmem hP x hx
      rcases processPackage_isSome_cases prog.model st pkg x hx with h0 | h0 | h0 | h0
      · exact hP x h0
      · exact ⟨pkg, hmem, Or.inl h0⟩
      · exact ⟨pkg, hmem, Or.inr (Or.inl h0)⟩
      · exact ⟨pkg, hmem, Or.inr (Or.inr h0)⟩
    · intro x hx
      simp [lookupDef] at hx
  · rintro ⟨pkg, hmem, hsrc⟩
    refine foldl_estab (fun st => (lookupDef st.defs o).isSome = true)
      (processPackage prog.model) prog.pkgs pkg hmem ?_ ?_ ⟨[], []⟩
    · intro st
      rcases hsrc with ⟨hdef, hskip, hpkg⟩ | huse | ⟨file, hfile, cl, hcl, hmark⟩
      · exact processPackage_candidate_member prog.model st pkg o hdef hskip hpkg
      · exact processPackage_uses_member prog.model st pkg o huse
      · exact processPackage_lit_member prog.model st pkg o file cl hfile hcl hmark
    · intro st p _ hp
      exact processPackage_isSome prog.model st p o hp

/-- C7 witness: the usage of the local variable makes its key present in
the table. -/
theorem C7_usage_insertion_witness :
    (lookupDef (buildState progLocalUse).defs 5).isSome = true :=
  (C7_usage_insertion progLocalUse 5).mpr
    ⟨pkgLocalUse, by decide, Or.inr (Or.inl (by decide))⟩

/-- C8: the package-scope no-receiver function main of a package named main,
and any no-receiver function named init, never appear in the result list,
whatever the configuration. -/
theorem C8_entry_point_amnesty (c : Checker) (prog : LoadedProgram) (o : ObjId)
    (h : ((prog.model.objInfo o).pkgName = some "main" ∧
          (prog.model.objInfo o).name = "main" ∧
          isPkgScope prog.model o = true ∧
          isFunction prog.model o = true ∧
          isMethod prog.model o = false) ∨
         (isFunction prog.model o = true ∧ isMethod prog.model o = false ∧
          (prog.model.objInfo o).name = "init")) :
    o ∉ checkResult c prog := by
  intro hmem
  rcases (mem_checkResult_iff c prog o).mp hmem with ⟨u, _, hkeep⟩
  rcases h with ⟨h1, h2, h3, h4, h5⟩ | ⟨h1, h2, h3⟩
  · have hmain : isMain prog.model o = true := by
      simp [isMain, h1, h2, h3, h4, h5]
    simp [keepObj, hmain] at hkeep
  · simp [keepObj, h1, h2, h3] at hkeep

/-- C8 witness: neither main nor init is reported. -/
theorem C8_entry_point_amnesty_witness :
    7 ∉ checkResult (Checker.mk 31 false) progEntry ∧
    8 ∉ checkResult (Checker.mk 31 false) progEntry := by
  constructor
  · exact C8_entry_point_amnesty (Checker.mk 31 false) progEntry 7
      (Or.inl ⟨by decide, by decide, by decide, by decide, by decide⟩)
  · exact C8_entry_point_amnesty (Checker.mk 31 false) progEntry 8
      (Or.inr ⟨by decide, by decide, by decide⟩)

/-- C9: when resolution succeeds, the caller slice observed after the call
is the resolved list — every element has been overwritten in place with its
canonical import path. -/
theorem C9_resolve_mutation (c : Checker) (resolve : String → Option String)
    (load : List String → Option LoadedProgram) (paths paths' : List String)
    (h : resolveRelative resolve paths = (paths', false)) :
    (Checker.Check c resolve load paths).1 = paths' ∧
    paths'.length = paths.length ∧
    ∀ pq ∈ paths.zip paths', resolve pq.1 = some pq.2 := by
  obtain ⟨hl, hz⟩ := resolveRelative_ok resolve paths paths' h
  refine ⟨?_, hl, hz⟩
  cases hload : load paths' with
  | none => simp [Checker.Check, h, hload]
  | some prog => simp [Checker.Check, h, hload]

/-- C9 witness: both caller paths come back rewritten with their canonical
image. -/
theorem C9_resolve_mutation_witness :
    (Checker.Check (Checker.mk 31 false) exResolve exLoad ["a", "b"]).1 =
      ["go/a", "go/b"] ∧
    (["go/a", "go/b"] : List String).length = (["a", "b"] : List String).length ∧
    ∀ pq ∈ (["a", "b"] : List String).zip ["go/a", "go/b"],
      exResolve pq.1 = some pq.2 :=
  C9_resolve_mutation (Checker.mk 31 false) exResolve exLoad ["a", "b"]
    ["go/a", "go/b"] (by decide)

/-- C10: a symbol whose owning package is nil never appears in the result
list. -/
theorem C10_nil_pkg_skip (c : Checker) (prog : LoadedProgram) (o : ObjId)
    (h : (prog.model.objInfo o).pkgName = none) :
    o ∉ checkResult c prog := by
  intro hmem
  rcases (mem_checkResult_iff c prog o).mp hmem with ⟨u, _, hkeep⟩
  simp [keepObj, h] at hkeep

/-- C10 witness: the universe constant is never reported. -/
theorem C10_nil_pkg_skip_witness :
    9 ∉ checkResult (Checker.mk 31 false) progUniverse :=
  C10_nil_pkg_skip (Checker.mk 31 false) progUniverse 9 (by decide)

end Unused






